import Mathlib

/-!
A verification development for the go-varlink runtime (Snaipe/go-varlink).

The definitions below are a shallow embedding of the Go sources:
  * the wire data model and builders (`Call`, `Reply`, `MakeReply`, option
    values) from `unix.go` and the options file,
  * URI handling and the client transport (`ParseURI`, `Dial`,
    `Transport.RoundTrip`, `Transport.takeSession`) from `unix.go` and
    `transport.go`,
  * the fd-passing connection (`UnixConn`) from `unix.go` / `sock_unix.go`,
  * the session multiplexer (`Session.writeMsg`, `Session.WriteCall`,
    `Session.WriteReply`, `Session.ReadReply`) from `session.go`,
  * the consumer-side reply iterator (`ReplyStream.Next`) from `transport.go`,
  * the server dispatch worker (`Server.serveCall`) from the server file,
  * the IDL parser (`Parser.*`) from `syntax/parse.go` and the IDL lexer
    (`Lexer.*`) from `syntax/lex.go`.

Go slices become `List`, `json.RawMessage` becomes `Option String` (with
`none` for a nil raw message), file descriptors become `Nat`, and panics
become explicit fault values.  Concurrency is modelled in the single-reader
regime: condition-variable waits that can never be woken in that regime are
modelled as an explicit `blocked` outcome, and context cancellation is a
boolean threaded where a claim depends on it.  JSON string values are
encoded without escape sequences; no claim exercises escaping.
-/

/-- A position in an IDL document: line and column, both starting at 1
(`syntax/lex.go`, type `Cursor`). -/
structure Cursor where
  line : Nat
  column : Nat
deriving DecidableEq, Repr

/-- Cursor motion of `Lexer.readRune` (`syntax/lex.go`): consuming a rune
moves `NextPosition` to the next line on a bare newline and to the next
column otherwise. -/
def Cursor.advance (c : Cursor) (ch : Char) : Cursor :=
  if ch = '\n' then ⟨c.line + 1, 1⟩ else ⟨c.line, c.column + 1⟩

/-- Position reached after consuming a list of runes starting at `c`. -/
def Cursor.advanceList (c : Cursor) (cs : List Char) : Cursor :=
  cs.foldl Cursor.advance c

/-- A JSON document, used to model the `any` values handed to
`json.Marshal` by `MakeCall`/`MakeReply` (`unix.go`). -/
inductive Json where
  | null
  | bool (b : Bool)
  | num (n : Int)
  | str (s : String)
  | arr (elems : List Json)
  | obj (fields : List (String × Json))

/-- JSON string quoting. Escaping is elided: the development never encodes
strings containing quotes, backslashes or control characters. -/
def jsonQuote (s : String) : String :=
  "\"" ++ s ++ "\""

mutual
/-- Serialization of a `Json` document, following `encoding/json`
(object fields in listed order, no extra whitespace). -/
def Json.encode : Json → String
  | .null => "null"
  | .bool true => "true"
  | .bool false => "false"
  | .num n => toString n
  | .str s => jsonQuote s
  | .arr elems => "[" ++ Json.encodeElems elems ++ "]"
  | .obj fields => "\x7b" ++ Json.encodeFields fields ++ "\x7d"

def Json.encodeElems : List Json → String
  | [] => ""
  | [x] => x.encode
  | x :: xs => x.encode ++ "," ++ Json.encodeElems xs

def Json.encodeFields : List (String × Json) → String
  | [] => ""
  | [(k, v)] => jsonQuote k ++ ":" ++ v.encode
  | (k, v) :: xs => jsonQuote k ++ ":" ++ v.encode ++ "," ++ Json.encodeFields xs
end

/-- A varlink error value (`errors.go`, type `varlinkError`): a
fully-qualified error code and raw JSON parameters.  `MarshalJSON` on a
`varlinkError` returns the raw parameter bytes. -/
structure VError where
  Code : String
  Parameters : Option String
deriving DecidableEq, Repr

/-- A Go `any` value as passed to `json.Marshal` inside
`MakeCall`/`MakeReply`: a nil interface, a JSON document, or a varlink
error value (whose custom `MarshalJSON` returns its raw parameters). -/
inductive GoVal where
  | nil
  | json (j : Json)
  | verr (e : VError)

/-- `json.Marshal` on a `GoVal`.  A nil `any` marshals to the JSON
literal `null`; a `varlinkError` marshals through its `MarshalJSON`,
which returns the raw `Parameters` bytes (`errors.go`). -/
def GoVal.marshal : GoVal → String
  | .nil => "null"
  | .json j => j.encode
  | .verr e => match e.Parameters with
    | some p => p
    | none => ""

/-- A varlink reply envelope (`unix.go`, type `Reply`).  `Parameters`
models the `json.RawMessage` field (`none` = nil raw message); the
`json:"-"` field `FileDescriptors` carries fd handles. -/
structure Reply where
  Parameters : Option String := none
  Continues : Bool := false
  Error : String := ""
  FileDescriptors : List Nat := []
deriving DecidableEq, Repr

/-- A reply option (`options.go`): `Continues()`, `ErrorCode(code)` and
`Fd(fd)` mutate the reply envelope. -/
inductive ReplyOption where
  | continuesOpt
  | errorCode (code : String)
  | fd (fd : Nat)
deriving DecidableEq, Repr

/-- `SetReplyOption` of each builder option (`options.go`). -/
def ReplyOption.set (r : Reply) : ReplyOption → Reply
  | .continuesOpt => { r with Continues := true }
  | .errorCode code => { r with Error := code }
  | .fd x => { r with FileDescriptors := r.FileDescriptors ++ [x] }

/-- `MakeReply` (`unix.go`): marshal the parameters (even when nil, so
that the `parameters` field is never omitted on the wire), then apply the
options in order. -/
def MakeReply (params : GoVal) (opts : List ReplyOption) : Reply :=
  opts.foldl ReplyOption.set { Parameters := some params.marshal }

/-- Wire serialization of a reply (`Session.WriteReply` marshals the
`Reply` struct, `unix.go` tags): `parameters` has no `omitempty` and a nil
raw message encodes as `null`; `continues` and `error` carry `omitempty`;
`FileDescriptors` is `json:"-"`. -/
def Reply.encodeWire (r : Reply) : String :=
  "\x7b\"parameters\":" ++
    (match r.Parameters with
      | none => "null"
      | some raw => raw) ++
    (if r.Continues then ",\"continues\":true" else "") ++
    (if r.Error ≠ "" then ",\"error\":" ++ jsonQuote r.Error else "") ++
    "\x7d"

/-- A varlink URI (`unix.go`, type `URI`). -/
structure URI where
  Scheme : String
  Address : String
deriving DecidableEq, Repr

/-- The zero `URI` value, against which `Transport.RoundTrip` compares
`call.URI` (`transport.go`). -/
def emptyURI : URI := ⟨"", ""⟩

/-- A varlink call envelope (`unix.go`, type `Call`).  `URI` and
`FileDescriptors` are `json:"-"`; `Parameters` is a raw message with
`omitempty`. -/
structure Call where
  URI : URI := emptyURI
  Method : String
  OneWay : Bool := false
  More : Bool := false
  Upgrade : Bool := false
  Parameters : Option String := none
  FileDescriptors : List Nat := []
deriving DecidableEq, Repr

/-- Wire serialization of a call (struct tags in `unix.go`): `method`
always present, the three flags and `parameters` carry `omitempty`. -/
def Call.encodeWire (c : Call) : String :=
  "\x7b\"method\":" ++ jsonQuote c.Method ++
    (if c.OneWay then ",\"oneway\":true" else "") ++
    (if c.More then ",\"more\":true" else "") ++
    (if c.Upgrade then ",\"upgrade\":true" else "") ++
    (match c.Parameters with
      | none => ""
      | some raw => ",\"parameters\":" ++ raw) ++
    "\x7d"

/-- `strings.Cut`: split a character list at the first occurrence of
`sep`.  Returns `none` when `sep` does not occur. -/
def cutList (sep : Char) : List Char → Option (List Char × List Char)
  | [] => none
  | c :: rest =>
    if c = sep then some ([], rest)
    else (cutList sep rest).map (fun p => (c :: p.1, p.2))

/-- `strings.LastIndexByte`: index of the last occurrence of `c`. -/
def lastIndexOf (c : Char) (l : List Char) : Option Nat :=
  match l with
  | [] => none
  | x :: rest =>
    match lastIndexOf c rest with
    | some i => some (i + 1)
    | none => if x = c then some 0 else none

/-- Errors surfaced by the client transport path
(`transport.go` / `session.go` / `unix.go`). -/
inductive RTErr where
  | malformedMethod (method : String)
  | notURIForm (uri : String)
  | unsupportedScheme (u : URI)
deriving DecidableEq, Repr

/-- `ParseURI` (`unix.go`): split on the first `:` into scheme and rest;
everything after a `;` is reserved properties and dropped. -/
def ParseURI (uri : String) : Except RTErr URI :=
  match cutList ':' uri.data with
  | none => .error (.notURIForm uri)
  | some (scheme, rest) =>
    let addr := match cutList ';' rest with
      | some (a, _props) => a
      | none => rest
    .ok ⟨String.mk scheme, String.mk addr⟩

/-- `URI.String()` (`unix.go`): `scheme:address`. -/
def URI.string (u : URI) : String :=
  u.Scheme ++ ":" ++ u.Address

/-- `Dial` (`session.go`): parse the URI and connect for the `tcp` and
`unix` schemes; any other scheme is `ErrUnsupportedScheme`.  The
successfully dialed endpoint stands in for the new session. -/
def Dial (uri : String) : Except RTErr URI := do
  let u ← ParseURI uri
  match u.Scheme with
  | "tcp" => .ok u
  | "unix" => .ok u
  | _ => .error (.unsupportedScheme u)

/-- Where `Transport.RoundTrip` got its session from. -/
inductive SessOrigin where
  | provided
  | pooled (u : URI)
  | dialed (u : URI)
deriving DecidableEq, Repr

/-- The URI synthesis at the top of `Transport.RoundTrip`
(`transport.go` lines 44-52): with an empty `call.URI`, derive
`unix:@<interface>` from the method name up to its last dot; a method
name without a dot is a malformed-method error. -/
def Transport.deriveURI (call : Call) : Except RTErr URI :=
  if call.URI = emptyURI then
    match lastIndexOf '.' call.Method.data with
    | none => .error (.malformedMethod call.Method)
    | some i => .ok ⟨"unix", "@" ++ String.mk (call.Method.data.take i)⟩
  else .ok call.URI

/-- `Transport.takeSession` (`transport.go`): take an idle session from
the per-URI pool channel if one is buffered, otherwise dial the URI.
`pool uri = true` models a buffered idle session for `uri`. -/
def Transport.takeSession (pool : URI → Bool) (uri : URI) : Except RTErr SessOrigin :=
  if pool uri then .ok (.pooled uri)
  else (Dial uri.string).map .dialed

/-- The session-acquisition path of `Transport.RoundTrip`
(`transport.go`): synthesize the default URI (the result `_uri` is not
read again, exactly as in the source, which passes `call.URI` to
`takeSession`), then use the provided session or take one for
`call.URI`. -/
def Transport.RoundTrip (pool : URI → Bool) (sessionProvided : Bool) (call : Call) :
    Except RTErr SessOrigin :=
  match Transport.deriveURI call with
  | .error e => .error e
  | .ok _uri =>
    if sessionProvided then .ok .provided
    else Transport.takeSession pool call.URI

/-- The 253-descriptor ancillary-data limit (`sock_unix.go`,
`_SCM_MAX_FD`). -/
def _SCM_MAX_FD : Nat := 253

/-- A fatal programmer-error fault (a Go `panic`). -/
inductive Fault where
  | programError (msg : String)
deriving DecidableEq, Repr

/-- The fd-passing unix connection (`unix.go`, type `UnixConn`):
descriptor queues for the next write and from prior reads, plus the
record of sent messages (attached descriptors and payload size). -/
structure UnixConn where
  wfds : List Nat := []
  rfds : List Nat := []
  sent : List (List Nat × Nat) := []
deriving DecidableEq, Repr

/-- `UnixConn.PassFds` (`unix.go`): append the descriptors to the send
queue.  The source contains no check and no panic here; the `Except`
result records that no fault is ever raised. -/
def UnixConn.PassFds (u : UnixConn) (fds : List Nat) : Except Fault UnixConn :=
  .ok { u with wfds := u.wfds ++ fds }

/-- `UnixConn.Write` (`unix.go`): panic if the queued descriptors exceed
`_SCM_MAX_FD`, otherwise send the payload with the queued descriptors
attached and clear the queue.  `n` is the payload length; the syscall
error paths of `send` are elided (the guard precedes any syscall, and
`send` re-checks the same bound). -/
def UnixConn.Write (u : UnixConn) (n : Nat) : Except Fault (UnixConn × Nat) :=
  if u.wfds.length > _SCM_MAX_FD then
    .error (.programError "cannot pass more than 253 file descriptors per write")
  else
    .ok ({ u with wfds := [], sent := u.sent ++ [(u.wfds, n)] }, n)

/-- Errors returned by the session read path (`session.go` /
`errors.go`). -/
inductive RdErr where
  | peerDisconnected
deriving DecidableEq, Repr

/-- Errors returned by the session write path (`session.go`). -/
inductive WErr where
  | fdPassingNotSupported
deriving DecidableEq, Repr

/-- The connection a session owns (`session.go`): whether it implements
the `FdPasser` interface, the flushed outbound bytes, and the descriptor
lists queued by `PassFds` at each write. -/
structure SessConn where
  isFdPasser : Bool
  written : String := ""
  passed : List (List Nat) := []
deriving DecidableEq, Repr

/-- One framed inbound message, already classified the way
`Session.readCallOrReply` classifies it (a decoded object with a `method`
field is a call, any other is a reply). -/
inductive WireMsg where
  | call (c : Call)
  | reply (r : Reply)
deriving DecidableEq, Repr

/-- A varlink session (`session.go`, type `Session`): the connection, the
queue of parked inbound calls (`cq`), the queue of parked inbound replies
(`rq`), the in-flight outbound calls in dispatch order (identified by
pointer in Go, by `Nat` id here), and the unread inbound messages of the
peer stream.  The model is the single-reader regime: mutex and
condition-variable state does not appear, and a wait that cannot be woken
is an explicit `blocked` outcome. -/
structure Session where
  conn : SessConn
  cq : List Call := []
  rq : List Reply := []
  inflight : List Nat := []
  peer : List WireMsg := []
deriving DecidableEq, Repr

/-- `Session.writeMsg` (`session.go`): refuse descriptors on a connection
that is not an `FdPasser` before writing anything; otherwise write the
payload, queue the descriptors, write the NUL terminator and flush.  The
session is returned unchanged alongside the error, as in Go where the
receiver is left untouched. -/
def Session.writeMsg (s : Session) (msg : String) (fds : List Nat) :
    Session × Option WErr :=
  if fds ≠ [] ∧ ¬s.conn.isFdPasser then
    (s, some .fdPassingNotSupported)
  else
    ({ s with conn := { s.conn with
        written := s.conn.written ++ msg ++ "\x00",
        passed := if fds ≠ [] then s.conn.passed ++ [fds] else s.conn.passed } },
      none)

/-- `Session.WriteCall` (`session.go`): marshal and write the call, then
append it to the in-flight list.  On a write error the in-flight list is
not touched.  `id` models the Go pointer identity of `call`. -/
def Session.WriteCall (s : Session) (id : Nat) (call : Call) :
    Session × Option WErr :=
  match s.writeMsg call.encodeWire call.FileDescriptors with
  | (s', some e) => (s', some e)
  | (s', none) => ({ s' with inflight := s'.inflight ++ [id] }, none)

/-- `Session.WriteReply` (`session.go`): marshal and write the reply. -/
def Session.WriteReply (s : Session) (reply : Reply) : Session × Option WErr :=
  s.writeMsg reply.encodeWire reply.FileDescriptors

/-- `Session.WriteCall` over a list of calls in dispatch order. -/
def Session.writeCalls (s : Session) : List (Nat × Call) → Session × Option WErr
  | [] => (s, none)
  | (id, c) :: rest =>
    match s.WriteCall id c with
    | (s', none) => s'.writeCalls rest
    | (s', some e) => (s', some e)

/-- Outcome of `Session.ReadReply` in the single-reader regime. -/
inductive RRResult where
  | ok (r : Reply) (s : Session)
  | blocked
  | fault
  | err (e : RdErr)
deriving DecidableEq, Repr

/-- The read loop of `Session.readReply` (`session.go`): classify framed
messages; inbound calls are pushed onto the call queue, the first reply
is returned.  End of stream is a peer disconnect. -/
def Session.readReplyLoop (cq : List Call) :
    List WireMsg → Except RdErr (Reply × List Call × List WireMsg)
  | [] => .error .peerDisconnected
  | .call c :: rest => Session.readReplyLoop (cq ++ [c]) rest
  | .reply r :: rest => .ok (r, cq, rest)

/-- `Session.readReply` (`session.go`): pop a parked reply if one is
queued, otherwise become the reader and loop over inbound messages. -/
def Session.readReply (s : Session) : Except RdErr (Reply × Session) :=
  match s.rq with
  | r :: rest => .ok (r, { s with rq := rest })
  | [] =>
    match Session.readReplyLoop [] s.peer with
    | .error e => .error e
    | .ok (r, cq', peer') => .ok (r, { s with cq := s.cq ++ cq', peer := peer' })

/-- `Session.ReadReply` (`session.go`): wait until `initiator` is the head
of the in-flight list (`waitCall`; an empty in-flight list is a
programming-error panic, a different head never wakes in the
single-reader regime and blocks), read a reply, and pop the in-flight
head exactly when the reply does not continue. -/
def Session.ReadReply (s : Session) (initiator : Nat) : RRResult :=
  match s.inflight with
  | [] => .fault
  | head :: rest =>
    if head ≠ initiator then .blocked
    else
      match s.readReply with
      | .error e => .err e
      | .ok (r, s') =>
        if ¬r.Continues then .ok r { s' with inflight := rest }
        else .ok r s'

/-- A sequence of `Session.ReadReply` calls with the given initiators,
collecting each initiator with the reply delivered to it.  `none` when
any read blocks, faults or fails. -/
def Session.runReads (s : Session) : List Nat → Option (List (Nat × Reply) × Session)
  | [] => some ([], s)
  | i :: rest =>
    match s.ReadReply i with
    | .ok r s' =>
      match s'.runReads rest with
      | some (prs, s'') => some ((i, r) :: prs, s'')
      | none => none
    | _ => none

/-- The error stored by a `ReplyStream` (`transport.go`): either the
error returned by the session read, or an error reply lifted into a
`varlinkError`. -/
inductive StreamErr where
  | io (e : RdErr)
  | verr (e : VError)
deriving DecidableEq, Repr

/-- The consumer-side reply iterator (`transport.go`, type
`ReplyStream`): the originating call (by id), the current reply, the last
error and the `more` flag.  The session is passed alongside instead of
being referenced. -/
structure ReplyStream where
  callId : Nat
  cur : Reply := {}
  err : Option StreamErr := none
  more : Bool
deriving DecidableEq, Repr

/-- `NewReplyStream` (`transport.go`): a fresh stream with `more` set. -/
def NewReplyStream (id : Nat) : ReplyStream :=
  { callId := id, more := true }

/-- `ReplyStream.Next` (`transport.go`): return false immediately once
`more` is cleared; otherwise read the next reply for the originating
call.  A read error clears `more` and returns false; an error reply is
lifted into the stored error; `more` becomes the reply's `continues`.
`none` models a read that blocks (or panics) and never returns. -/
def ReplyStream.Next (r : ReplyStream) (s : Session) :
    Option (Bool × ReplyStream × Session) :=
  if ¬r.more then some (false, r, s)
  else
    match s.ReadReply r.callId with
    | .ok rep s' =>
      let e := if rep.Error ≠ "" then some (StreamErr.verr ⟨rep.Error, rep.Parameters⟩)
               else none
      some (true, { r with cur := rep, err := e, more := rep.Continues }, s')
    | .err e => some (false, { r with err := some (.io e), more := false }, s)
    | .blocked => none
    | .fault => none

/-- `k` successive `Next()` calls, collecting their boolean results. -/
def ReplyStream.runNext (r : ReplyStream) (s : Session) :
    Nat → Option (List Bool × ReplyStream × Session)
  | 0 => some ([], r, s)
  | k + 1 =>
    match r.Next s with
    | some (b, r', s') =>
      match r'.runNext s' k with
      | some (bs, r'', s'') => some (b :: bs, r'', s'')
      | none => none
    | none => none

/-- Modelled from the spec: the generated error constructor
`service.MethodNotFound` (package `internal/service`, produced by codegen
and absent from the sources).  Per the spec, defined errors use
fully-qualified reverse-domain names under `org.varlink.service`, with
the offending method as parameter. -/
def service.MethodNotFound (method : String) : VError :=
  ⟨"org.varlink.service.MethodNotFound",
    some ("\x7b\"method\":" ++ jsonQuote method ++ "\x7d")⟩

/-- Modelled from the spec: the generated error constructor
`service.MethodNotImplemented` (package `internal/service`, absent from
the sources). -/
def service.MethodNotImplemented (method : String) : VError :=
  ⟨"org.varlink.service.MethodNotImplemented",
    some ("\x7b\"method\":" ++ jsonQuote method ++ "\x7d")⟩

/-- `replyWriter.WriteError` (server file): write the error value as a
reply with its code attached, `WriteReply(err, ErrorCode(err.ErrorCode()))`. -/
def writeErrorReply (e : VError) : Reply :=
  MakeReply (.verr e) [.errorCode e.Code]

/-- The handler's interaction with its `replyWriter`, as the sequence of
`WriteReply(parameters, opts...)` calls it performs. -/
abbrev HandlerWrites := List (GoVal × List ReplyOption)

/-- `replyWriter.WriteReply`/`writeReply` over a handler's writes (server
file): each write first checks the call context (a done context skips the
write and returns its error to the handler), then panics on a write after
a terminal reply, then marks the writer replied when the reply does not
continue.  Returns the replies written and the final replied flag. -/
def runHandlerWrites (ctxDone : Bool) (replied : Bool) :
    HandlerWrites → Except Fault (List Reply × Bool)
  | [] => .ok ([], replied)
  | (p, opts) :: rest =>
    if ctxDone then runHandlerWrites ctxDone replied rest
    else
      let rep := MakeReply p opts
      if replied then .error (.programError "method call has already been replied to.")
      else
        match runHandlerWrites ctxDone (if ¬rep.Continues then true else replied) rest with
        | .ok (sent, rp) => .ok (rep :: sent, rp)
        | .error f => .error f

/-- The per-call body of the `ServeSession` worker goroutine (server
file): with a nil handler, write a `MethodNotFound` error; otherwise run
the handler and, unless the session context is done, synthesize a
`MethodNotImplemented` error when the handler returned without a terminal
reply.  The result is the list of replies the server emits on the session
for this call. -/
def Server.serveCall (handler : Option HandlerWrites) (ctxDone : Bool) (call : Call) :
    Except Fault (List Reply) :=
  match handler with
  | none => if ctxDone then .ok [] else .ok [writeErrorReply (service.MethodNotFound call.Method)]
  | some writes =>
    match runHandlerWrites ctxDone false writes with
    | .error f => .error f
    | .ok (sent, replied) =>
      if ctxDone then .ok sent
      else if ¬replied then
        .ok (sent ++ [writeErrorReply (service.MethodNotImplemented call.Method)])
      else .ok sent

/-- Token types of the IDL lexer (`syntax/lex.go`). -/
inductive TokenType where
  | eof
  | error
  | newline
  | whitespace
  | comment
  | name
  | fieldName
  | interfaceName
  | typeDef
  | interfaceDef
  | methodDef
  | errorDef
  | array
  | dict
  | option
  | lparen
  | rparen
  | colon
  | comma
  | arrow
  | typeBool
  | typeString
  | typeAny
  | typeObject
  | typeInt
  | typeFloat
deriving DecidableEq, Repr

/-- `TokenType.String()` (`syntax/lex.go`): the literal spelling of the
token type constant. -/
def TokenType.str : TokenType → String
  | .eof => "<eof>"
  | .error => "<error>"
  | .newline => "<newline>"
  | .whitespace => "<whitespace>"
  | .comment => "<comment>"
  | .name => "<name>"
  | .fieldName => "<field-name>"
  | .interfaceName => "<interface-name>"
  | .typeDef => "type"
  | .interfaceDef => "interface"
  | .methodDef => "method"
  | .errorDef => "error"
  | .array => "[]"
  | .dict => "[string]"
  | .option => "?"
  | .lparen => "("
  | .rparen => ")"
  | .colon => ":"
  | .comma => ","
  | .arrow => "->"
  | .typeBool => "bool"
  | .typeString => "string"
  | .typeAny => "any"
  | .typeObject => "object"
  | .typeInt => "int"
  | .typeFloat => "float"

/-- A lexer token (`syntax/lex.go`, type `Token`): type, raw text, the
interpreted value (a string for identifiers and keywords, empty
otherwise), and start/end cursors.  `endPos` models the Go field `End`. -/
structure Token where
  typ : TokenType
  raw : List Char := []
  value : String := ""
  start : Cursor := ⟨1, 1⟩
  endPos : Cursor := ⟨1, 1⟩
deriving DecidableEq, Repr

/-- Parse errors (`syntax/parse.go` and `syntax/errors`): an unexpected
token thrown by `Parser.Accept`/`Parser.error`, a lexer error token, the
`panic("unknown token")` in `ElementType`, or fuel exhaustion of the
model (never reached with enough fuel). -/
inductive PErr where
  | unexpectedToken (got : TokenType) (expected : List TokenType)
  | lexError
  | panicUnknownToken (got : TokenType)
  | outOfFuel
deriving DecidableEq, Repr

/-- The AST type variants of `syntax/parse.go` (`StructType`, `EnumType`,
`BuiltinType`, `NamedType`, `ArrayType`, `DictType`, `NullableType`).
Cursor positions and attached comment lists are elided: the parser model
keeps their token-consumption behaviour but does not store them. -/
inductive VType where
  | struct (fields : List (String × VType))
  | enum (values : List String)
  | builtin (name : String)
  | named (name : String)
  | array (elem : VType)
  | dict (elem : VType)
  | nullable (t : VType)

/-- `Parser.Next` (`syntax/parse.go`): pop the next token (the pushback
buffer is the front of the list), skipping whitespace; a lexer error
token aborts the parse.  An exhausted stream yields the zero token
(`TokenEOF`), like a closed lexer channel. -/
def Parser.Next : List Token → Except PErr (Token × List Token)
  | [] => .ok ({ typ := .eof }, [])
  | t :: rest =>
    match t.typ with
    | .whitespace => Parser.Next rest
    | .error => .error .lexError
    | _ => .ok (t, rest)

/-- `Parser.Accept` (`syntax/parse.go`): read a token and require its
type to be one of `expect`. -/
def Parser.Accept (expect : List TokenType) (ts : List Token) :
    Except PErr (Token × List Token) := do
  let (t, rest) ← Parser.Next ts
  if t.typ ∈ expect then .ok (t, rest)
  else .error (.unexpectedToken t.typ expect)

/-- The loop of `Parser.Comments` (`syntax/parse.go`): accumulate comment
tokens; a newline clears the accumulator; EOF or any other token ends the
loop (the other token is pushed back). -/
def Parser.commentsLoop (acc : List Token) :
    Nat → List Token → Except PErr (List Token × List Token)
  | 0, _ => .error .outOfFuel
  | fuel + 1, ts => do
    let (t, rest) ← Parser.Next ts
    match t.typ with
    | .comment => Parser.commentsLoop (acc ++ [t]) fuel rest
    | .newline => Parser.commentsLoop [] fuel rest
    | .eof => .ok (acc, rest)
    | _ => .ok (acc, t :: rest)

/-- `Parser.Comments` (`syntax/parse.go`). -/
def Parser.Comments (fuel : Nat) (ts : List Token) :
    Except PErr (List Token × List Token) :=
  Parser.commentsLoop [] fuel ts

mutual
/-- `Parser.Type` (`syntax/parse.go`; `TypeP` because `Type` is reserved
in Lean): a `?` prefix builds a `NullableType`, otherwise parse a
non-nullable type. -/
def Parser.TypeP : Nat → List Token → Except PErr (VType × List Token)
  | 0, _ => .error .outOfFuel
  | fuel + 1, ts => do
    let (tok, ts₁) ← Parser.Next ts
    match tok.typ with
    | .option => do
      let (t, ts₂) ← Parser.TypeP fuel ts₁
      .ok (.nullable t, ts₂)
    | _ => Parser.NonNullableType fuel (tok :: ts₁)

/-- `Parser.NonNullableType` (`syntax/parse.go`): `[]` builds an
`ArrayType`, `[string]` a `DictType`, anything else an element type. -/
def Parser.NonNullableType : Nat → List Token → Except PErr (VType × List Token)
  | 0, _ => .error .outOfFuel
  | fuel + 1, ts => do
    let (tok, ts₁) ← Parser.Next ts
    match tok.typ with
    | .array => do
      let (t, ts₂) ← Parser.TypeP fuel ts₁
      .ok (.array t, ts₂)
    | .dict => do
      let (t, ts₂) ← Parser.TypeP fuel ts₁
      .ok (.dict t, ts₂)
    | _ => Parser.ElementType fuel (tok :: ts₁)

/-- `Parser.ElementType` (`syntax/parse.go`): builtins and named types,
plus the aggregate disambiguation: after `(`, skip comments, peek the
first field-name (an immediate `)` restores the stream and parses a
struct); then `Accept(TokenColon, TokenComma)` decides struct versus
enum, restoring the stream for the chosen branch. -/
def Parser.ElementType : Nat → List Token → Except PErr (VType × List Token)
  | 0, _ => .error .outOfFuel
  | fuel + 1, ts => do
    let (tok, ts₁) ← Parser.Next ts
    match tok.typ with
    | .typeBool => .ok (.builtin TokenType.typeBool.str, ts₁)
    | .typeInt => .ok (.builtin TokenType.typeInt.str, ts₁)
    | .typeString => .ok (.builtin TokenType.typeString.str, ts₁)
    | .typeFloat => .ok (.builtin "float64", ts₁)
    | .typeObject => .ok (.builtin "json.RawMessage", ts₁)
    | .typeAny => .ok (.builtin "json.RawMessage", ts₁)
    | .lparen => do
      let (comments, ts₂) ← Parser.Comments fuel ts₁
      let (first, ts₃) ← Parser.Accept [.fieldName, .rparen] ts₂
      if first.typ = .rparen then
        Parser.Struct fuel (tok :: (comments ++ first :: ts₃))
      else do
        let (cc, ts₄) ← Parser.Accept [.colon, .comma] ts₃
        let restored := tok :: (comments ++ first :: cc :: ts₄)
        if cc.typ = .colon then Parser.Struct fuel restored
        else Parser.Enum fuel restored
    | .name => .ok (.named tok.value, ts₁)
    | t => .error (.panicUnknownToken t)

/-- `Parser.Enum` (`syntax/parse.go`): `(`, an optional leading comment or
newline, then the value loop. -/
def Parser.Enum : Nat → List Token → Except PErr (VType × List Token)
  | 0, _ => .error .outOfFuel
  | fuel + 1, ts => do
    let (_, ts₁) ← Parser.Accept [.lparen] ts
    let (next, ts₂) ← Parser.Accept [.fieldName, .comment, .newline] ts₁
    if next.typ = .fieldName then Parser.enumLoop false [] fuel (next :: ts₂)
    else Parser.enumLoop false [] fuel ts₂

/-- The value loop of `Parser.Enum` (`syntax/parse.go`): `last` is set
when a value is not followed by a comma, after which only `)` may
follow. -/
def Parser.enumLoop (last : Bool) (acc : List String) :
    Nat → List Token → Except PErr (VType × List Token)
  | 0, _ => .error .outOfFuel
  | fuel + 1, ts => do
    let (_comments, ts₁) ← Parser.Comments fuel ts
    let (nameTok, ts₂) ← Parser.Accept [.fieldName, .rparen] ts₁
    if nameTok.typ = .rparen then .ok (.enum acc, ts₂)
    else if last then .error (.unexpectedToken nameTok.typ [.rparen])
    else do
      let acc' := acc ++ [nameTok.value]
      let (comma, ts₃) ← Parser.Next ts₂
      let (last', ts₄) := if comma.typ ≠ .comma then (true, comma :: ts₃) else (false, ts₃)
      let (next, ts₅) ← Parser.Accept [.rparen, .comment, .newline, .fieldName] ts₄
      match next.typ with
      | .fieldName => Parser.enumLoop last' acc' fuel (next :: ts₅)
      | .rparen => .ok (.enum acc', ts₅)
      | _ => Parser.enumLoop last' acc' fuel ts₅

/-- `Parser.Struct` (`syntax/parse.go`): `(`, then either an immediate
`)` (empty struct), a first field-name (pushed back), or a skipped
comment or newline, then the field loop. -/
def Parser.Struct : Nat → List Token → Except PErr (VType × List Token)
  | 0, _ => .error .outOfFuel
  | fuel + 1, ts => do
    let (_, ts₁) ← Parser.Accept [.lparen] ts
    let (next, ts₂) ← Parser.Accept [.fieldName, .comment, .newline, .rparen] ts₁
    match next.typ with
    | .rparen => .ok (.struct [], ts₂)
    | .fieldName => Parser.structLoop false [] fuel (next :: ts₂)
    | _ => Parser.structLoop false [] fuel ts₂

/-- The field loop of `Parser.Struct` (`syntax/parse.go`). -/
def Parser.structLoop (last : Bool) (acc : List (String × VType)) :
    Nat → List Token → Except PErr (VType × List Token)
  | 0, _ => .error .outOfFuel
  | fuel + 1, ts => do
    let (_comments, ts₁) ← Parser.Comments fuel ts
    let (nameTok, ts₂) ← Parser.Accept [.fieldName, .rparen] ts₁
    if nameTok.typ = .rparen then .ok (.struct acc, ts₂)
    else if last then .error (.unexpectedToken nameTok.typ [.rparen])
    else do
      let (_, ts₃) ← Parser.Accept [.colon] ts₂
      let (fty, ts₄) ← Parser.TypeP fuel ts₃
      let acc' := acc ++ [(nameTok.value, fty)]
      let (comma, ts₅) ← Parser.Next ts₄
      let (last', ts₆) := if comma.typ ≠ .comma then (true, comma :: ts₅) else (false, ts₅)
      let (next, ts₇) ← Parser.Accept [.rparen, .comment, .newline, .fieldName] ts₆
      match next.typ with
      | .fieldName => Parser.structLoop last' acc' fuel (next :: ts₇)
      | .rparen => .ok (.struct acc', ts₇)
      | _ => Parser.structLoop last' acc' fuel ts₇
end

/-- ASCII range test by code point. -/
def charBetween (lo hi c : Char) : Bool :=
  lo.toNat ≤ c.toNat && c.toNat ≤ hi.toNat

/-- `[A-Z]`. -/
def isUpper (c : Char) : Bool := charBetween 'A' 'Z' c

/-- `[a-zA-Z]`. -/
def isAlpha (c : Char) : Bool := charBetween 'a' 'z' c || charBetween 'A' 'Z' c

/-- `[A-Za-z0-9]`. -/
def isAlnum (c : Char) : Bool := isAlpha c || charBetween '0' '9' c

/-- `isIdentifierChar` (`syntax/lex.go`), including the source's reversed
digit comparison `r <= '0' && r >= '9'`, which is never true; digits are
only reached inside identifiers through the regular expressions, never as
a first rune. -/
def isIdentifierChar (r : Char) (_i : Nat) : Bool :=
  (charBetween 'a' 'z' r) || (charBetween 'A' 'Z' r) ||
    (r.toNat ≤ '0'.toNat && '9'.toNat ≤ r.toNat) ||
    r = '-' || r = '_' || r = '.'

/-- `lineSep` (`syntax/lex.go`): U+2028. -/
def lineSep : Char := Char.ofNat 0x2028

/-- `parSep` (`syntax/lex.go`): U+2029. -/
def parSep : Char := Char.ofNat 0x2029

/-- `unicode.IsSpace` of the Go standard library, by code point. -/
def goIsSpace (c : Char) : Bool :=
  let n := c.toNat
  n = 0x20 || n = 0x9 || n = 0xA || n = 0xB || n = 0xC || n = 0xD ||
    n = 0x85 || n = 0xA0 || n = 0x1680 || (0x2000 ≤ n && n ≤ 0x200A) ||
    n = 0x2028 || n = 0x2029 || n = 0x202F || n = 0x205F || n = 0x3000

/-- The newline runes recognized inside the whitespace loop of
`Lexer.lex` (`syntax/lex.go`). -/
def newlineChar (c : Char) : Bool :=
  c = '\n' || c = '\r' || c = lineSep || c = parSep

/-- Length of the longest match of `rname` = `[A-Z][A-Za-z0-9]*` at the
start of the input (`syntax/lex.go`). -/
def nameLen : List Char → Nat
  | [] => 0
  | c :: rest => if isUpper c then 1 + (rest.takeWhile isAlnum).length else 0

/-- Length of the longest match of `(_?[A-Za-z0-9])*` at the start of the
input: the repeated tail of `rfield` (`syntax/lex.go`). -/
def fieldExt : List Char → Nat
  | [] => 0
  | c :: rest =>
    if isAlnum c then 1 + fieldExt rest
    else if c = '_' then
      match rest with
      | [] => 0
      | d :: rest' => if isAlnum d then 2 + fieldExt rest' else 0
    else 0

/-- Length of the longest match of `rfield` = `[A-Za-z](_?[A-Za-z0-9])*`
at the start of the input (`syntax/lex.go`). -/
def fieldLen : List Char → Nat
  | [] => 0
  | c :: rest => if isAlpha c then 1 + fieldExt rest else 0

/-- Length of the longest match of `([-]*[A-Za-z0-9])*` at the start of
the input: the segment tail used by `rintf` (`syntax/lex.go`). -/
def segExt (l : List Char) : Nat :=
  let d := (l.takeWhile (fun c => c = '-')).length
  match h : l.drop d with
  | [] => 0
  | c :: rest => if isAlnum c then d + 1 + segExt rest else 0
termination_by l.length
decreasing_by
  have h1 := List.length_drop d l
  rw [h] at h1
  simp at h1
  omega

/-- Length of the longest match of `(\.[A-Za-z0-9]([-]*[A-Za-z0-9])*)+`
(zero or more further dotted segments of `rintf`), or 0 when no dotted
segment matches. -/
def dotGroups : List Char → Nat
  | '.' :: c :: rest =>
    if isAlnum c then
      let e := segExt rest
      2 + e + dotGroups (rest.drop e)
    else 0
  | _ => 0
termination_by l => l.length
decreasing_by
  have h1 := List.length_drop (segExt rest) rest
  simp [h1]
  omega

/-- Length of the longest match of `rintf` =
`[A-Za-z]([-]*[A-Za-z0-9])*(\.[A-Za-z0-9]([-]*[A-Za-z0-9])*)+` at the
start of the input (`syntax/lex.go`). -/
def intfLen : List Char → Nat
  | [] => 0
  | c :: rest =>
    if isAlpha c then
      let e := segExt rest
      let d := dotGroups (rest.drop e)
      if d = 0 then 0 else 1 + e + d
    else 0

/-- The keyword alternation of `rkeyword` (`syntax/lex.go`). -/
def keywords : List String :=
  ["interface", "method", "error", "type", "any", "object", "string", "int", "float", "bool"]

/-- Length of the longest keyword that prefixes the input. -/
def kwLen (l : List Char) : Nat :=
  (keywords.map (fun k => if l.take k.length = k.data then k.length else 0)).foldr max 0

/-- `keywordTokenMap` (`syntax/lex.go`). -/
def keywordTokenMap (s : String) : TokenType :=
  if s = "interface" then .interfaceDef
  else if s = "method" then .methodDef
  else if s = "error" then .errorDef
  else if s = "type" then .typeDef
  else if s = "any" then .typeAny
  else if s = "object" then .typeObject
  else if s = "string" then .typeString
  else if s = "int" then .typeInt
  else if s = "float" then .typeFloat
  else if s = "bool" then .typeBool
  else .error

/-- Modelled from the spec: the overall match length of
`reIdentifier.Accept` (the custom regexp engine in the `syntax` package
is not among the sources).  Per the spec, every alternative is matched
and the longest consumed; groups shorter than the full match are then
discarded. -/
def identMatchLen (l : List Char) : Nat :=
  max (max (nameLen l) (intfLen l)) (max (fieldLen l) (kwLen l))

/-- The cursor-tracking state of the IDL lexer (`syntax/lex.go`, type
`Lexer`): remaining input, the three cursors, the token buffer and the
identifier coercion type.  The rune back-buffer does not appear: unreads
restore the previous state exactly, so read-then-unread sequences are
modelled as peeks. -/
structure Lexer where
  input : List Char
  TokenPosition : Cursor
  Position : Cursor
  NextPosition : Cursor
  token : List Char
  CoerceIdentifierType : TokenType
deriving DecidableEq, Repr

/-- `NewLexer` / `Lexer.reset` (`syntax/lex.go`): all cursors start at
line 1 column 1; the zero `TokenType` is `TokenEOF`. -/
def NewLexer (input : List Char) : Lexer :=
  { input := input, TokenPosition := ⟨1, 1⟩, Position := ⟨1, 1⟩,
    NextPosition := ⟨1, 1⟩, token := [], CoerceIdentifierType := .eof }

/-- `Lexer.readRune` (`syntax/lex.go`): consume one rune into the token
buffer; `Position` becomes the old `NextPosition` and `NextPosition`
advances (next line on `\n`, next column otherwise). -/
def Lexer.readRune (l : Lexer) : Option (Char × Lexer) :=
  match l.input with
  | [] => none
  | c :: rest => some (c,
    { l with
        input := rest,
        token := l.token ++ [c],
        Position := l.NextPosition,
        NextPosition := l.NextPosition.advance c })

/-- `n` consecutive `readRune`s (stopping early at end of input). -/
def Lexer.readN : Lexer → Nat → Lexer
  | l, 0 => l
  | l, n + 1 =>
    match l.readRune with
    | none => l
    | some (_, l') => l'.readN n

/-- `Lexer.emit` (`syntax/lex.go`): the token spans `TokenPosition` to
`Position`; the buffer empties and `TokenPosition` moves to
`NextPosition`. -/
def Lexer.emit (l : Lexer) (typ : TokenType) (val : String) : Token × Lexer :=
  ({ typ := typ, raw := l.token, value := val,
     start := l.TokenPosition, endPos := l.Position },
   { l with token := [], TokenPosition := l.NextPosition })

/-- `Lexer.error` (`syntax/lex.go`): the terminal token of the stream,
typed `TokenEOF` for a clean end of input and `TokenError` otherwise,
spanning like an emitted token.  The channel closes afterwards, so no
successor state exists. -/
def Lexer.errToken (l : Lexer) (isEOF : Bool) : Token :=
  { typ := if isEOF then .eof else .error, raw := l.token,
    start := l.TokenPosition, endPos := l.Position }

/-- `Lexer.acceptString` (`syntax/lex.go`): read runes while they match
the expected string; a mismatched rune stays consumed.  Returns the state
and whether the whole string matched. -/
def Lexer.acceptString (l : Lexer) : List Char → Lexer × Bool
  | [] => (l, true)
  | e :: rest =>
    match l.readRune with
    | none => (l, false)
    | some (c, l') => if c = e then l'.acceptString rest else (l', false)

/-- Emit a single valueless token and continue lexing. -/
def Lexer.emit1 (l : Lexer) (typ : TokenType) : List Token × Option Lexer :=
  let (t, l') := l.emit typ ""
  ([t], some l')

/-- The whitespace run inside `Lexer.lex` (`syntax/lex.go`): keep
consuming space runes, stopping (with an unread, modelled as a peek)
before a newline rune or a non-space; at end of input the whitespace
token is emitted and the stream closes with the EOF token.  The recursive
call inlines `readRune` on a known-nonempty input. -/
def Lexer.wsLoop (l : Lexer) : List Token × Option Lexer :=
  match h : l.input with
  | [] =>
    let (t, l') := l.emit .whitespace ""
    ([t, l'.errToken true], none)
  | c :: rest =>
    if newlineChar c || !goIsSpace c then
      let (t, l') := l.emit .whitespace ""
      ([t], some l')
    else
      Lexer.wsLoop { l with
        input := rest,
        token := l.token ++ [c],
        Position := l.NextPosition,
        NextPosition := l.NextPosition.advance c }
termination_by l.input.length
decreasing_by simp [h]

/-- The `acceptUntil(r != '\n')` loop of the comment branch
(`syntax/lex.go`): consume runes up to, but not including, the next
`\n`; end of input stops the loop without error. -/
def Lexer.commentLoop (l : Lexer) : Lexer :=
  match h : l.input with
  | [] => l
  | c :: rest =>
    if c = '\n' then l
    else
      Lexer.commentLoop { l with
        input := rest,
        token := l.token ++ [c],
        Position := l.NextPosition,
        NextPosition := l.NextPosition.advance c }
termination_by l.input.length
decreasing_by simp [h]

/-- `Lexer.lexIdentifier` (`syntax/lex.go`): consume the overall
identifier match, reject capture groups shorter than the full match,
then classify — a requested coercion wins when its group matched,
otherwise keyword, name, interface-name and field-name in that order.
An input matching no alternative produces the terminal error token.
(The final field-name fallback is unreachable: a positive match length
equals one of the group lengths.) -/
def Lexer.lexIdentifier (l : Lexer) : List Token × Option Lexer :=
  let n := identMatchLen l.input
  if n = 0 then ([l.errToken false], none)
  else
    let text := String.mk (l.input.take n)
    let nm := if nameLen l.input = n then text else ""
    let itf := if intfLen l.input = n then text else ""
    let fld := if fieldLen l.input = n then text else ""
    let kw := if kwLen l.input = n then text else ""
    let l' := l.readN n
    let tv : TokenType × String :=
      if l.CoerceIdentifierType = .name ∧ nm ≠ "" then (.name, nm)
      else if l.CoerceIdentifierType = .interfaceName ∧ itf ≠ "" then (.interfaceName, itf)
      else if l.CoerceIdentifierType = .fieldName ∧ fld ≠ "" then (.fieldName, fld)
      else if kw ≠ "" then (keywordTokenMap kw, kw)
      else if nm ≠ "" then (.name, nm)
      else if itf ≠ "" then (.interfaceName, itf)
      else (.fieldName, fld)
    let (t, l'') := l'.emit tv.1 tv.2
    ([t], some l'')

/-- One activation of the `Lexer.lex` state machine (`syntax/lex.go`),
driven until at least one token reaches the channel: the tokens pushed
(two when an emit is chased by the terminal EOF token) and the state the
lexer continues in (`none` after the terminal token closes the channel).
Read-then-unread sequences appear as peeks on `input`. -/
def Lexer.lexStep (l : Lexer) : List Token × Option Lexer :=
  match l.readRune with
  | none => ([l.errToken true], none)
  | some (c, l₁) =>
    if c = '(' then l₁.emit1 .lparen
    else if c = ')' then l₁.emit1 .rparen
    else if c = '[' then
      match l₁.readRune with
      | none => ([l₁.errToken true], none)
      | some (']', l₂) => l₂.emit1 .array
      | some ('s', l₂) =>
        let (l₃, ok) := l₂.acceptString "tring]".data
        if ok then l₃.emit1 .dict else ([l₃.errToken false], none)
      | some (_, l₂) => ([l₂.errToken false], none)
    else if c = ':' then l₁.emit1 .colon
    else if c = ',' then l₁.emit1 .comma
    else if c = '?' then l₁.emit1 .option
    else if c = '-' then
      match l₁.readRune with
      | none => ([l₁.errToken true], none)
      | some ('>', l₂) => l₂.emit1 .arrow
      | some (_, l₂) => ([l₂.errToken false], none)
    else if c = '\n' ∨ c = lineSep ∨ c = parSep then l₁.emit1 .newline
    else if c = '\r' then
      match l₁.input.head? with
      | none =>
        let (t, l₂) := l₁.emit .newline ""
        ([t, l₂.errToken true], none)
      | some d =>
        if d = '\n' then
          match l₁.readRune with
          | some (_, l₂) => l₂.emit1 .newline
          | none => ([], none)
        else l₁.emit1 .newline
    else if c = '#' then
      let value := String.trim (String.mk (l₁.input.takeWhile (fun x => x ≠ '\n')))
      let l₂ := l₁.commentLoop
      match l₂.input.head? with
      | some '\n' =>
        match l₂.readRune with
        | some (_, l₃) =>
          let (t, l₄) := l₃.emit .comment value
          ([t], some l₄)
        | none => ([], none)
      | _ =>
        let (t, l₃) := l₂.emit .comment value
        ([t], some l₃)
    else if goIsSpace c then l₁.wsLoop
    else if isIdentifierChar c 0 then l.lexIdentifier
    else ([l₁.errToken false], none)

/-- The cursor of each consumed rune of a token, starting at `start`:
rune `i+1` sits at the advance of rune `i`'s cursor. -/
def tokenPositions (start : Cursor) : List Char → List Cursor
  | [] => []
  | c :: cs => start :: tokenPositions (start.advance c) cs

/-- Total raw length of a token list. -/
def totalRaw (ts : List Token) : Nat :=
  (ts.map (fun t => t.raw.length)).sum

/-- The tokens `ts`, starting at cursor `startPos`, tile the input: each
token's raw text is exactly the next consumed prefix, its `Start` is the
cursor of its first rune, and its `End` is the cursor of its last
consumed rune (so the consumed runes are those in the closed range
`[Start, End]`, not the half-open `[Start, End)`). -/
def tokensTile (startPos : Cursor) (input : List Char) : List Token → Prop
  | [] => True
  | t :: ts =>
    t.raw = input.take t.raw.length ∧
    t.start = startPos ∧
    (t.raw ≠ [] → (tokenPositions startPos t.raw).getLast? = some t.endPos) ∧
    tokensTile (startPos.advanceList t.raw) (input.drop t.raw.length) ts

/-- A lexer state at a token boundary: empty token buffer and
`TokenPosition` caught up with `NextPosition` (the state `emit` leaves
behind, and the state `NewLexer` starts in). -/
def Lexer.atBoundary (l : Lexer) : Prop :=
  l.token = [] ∧ l.TokenPosition = l.NextPosition

/-- A state `l` reached from boundary state `l₀` by consuming exactly the
runes now in `l.token`: the invariant maintained by `readRune` inside one
token. -/
def Lexer.ConsumedFrom (l₀ l : Lexer) : Prop :=
  l₀.input = l.token ++ l.input ∧
  l.TokenPosition = l₀.NextPosition ∧
  l.NextPosition = l₀.NextPosition.advanceList l.token ∧
  (l.token = [] → l.Position = l₀.Position) ∧
  (l.token ≠ [] → (tokenPositions l₀.NextPosition l.token).getLast? = some l.Position) ∧
  l.CoerceIdentifierType = l₀.CoerceIdentifierType

/-- Correctness of one `lexStep` activation relative to the boundary
state it started from: the emitted tokens tile the input, and the
continuation state is a boundary state positioned right after the
consumed runes. -/
def Lexer.StepOK (l₀ : Lexer) (res : List Token × Option Lexer) : Prop :=
  tokensTile l₀.NextPosition l₀.input res.1 ∧
  ∀ l', res.2 = some l' →
    l'.atBoundary ∧
    l'.input = l₀.input.drop (totalRaw res.1) ∧
    l'.NextPosition = l₀.NextPosition.advanceList (l₀.input.take (totalRaw res.1)) ∧
    l'.CoerceIdentifierType = l₀.CoerceIdentifierType

/-- Drive the lexer for up to `fuel` activations, concatenating the
emitted tokens (the pull loop of `Lexer.Next` over the token channel,
`syntax/lex.go`). -/
def Lexer.lexRun : Nat → Lexer → List Token
  | 0, _ => []
  | fuel + 1, l =>
    match l.lexStep with
    | (ts, some l') => ts ++ Lexer.lexRun fuel l'
    | (ts, none) => ts

/-- Decidable equality for `Except` results, used to evaluate the models
at concrete inputs. -/
instance exceptDecEq {ε α : Type} [DecidableEq ε] [DecidableEq α] :
    DecidableEq (Except ε α)
  | .ok a, .ok b =>
    if h : a = b then .isTrue (by rw [h]) else .isFalse (by simp [h])
  | .ok _, .error _ => .isFalse (by simp)
  | .error _, .ok _ => .isFalse (by simp)
  | .error a, .error b =>
    if h : a = b then .isTrue (by rw [h]) else .isFalse (by simp [h])

lemma replyOptionSet_parameters (r : Reply) (o : ReplyOption) :
    (ReplyOption.set r o).Parameters = r.Parameters := by
  cases o <;> rfl

lemma foldlSet_parameters (opts : List ReplyOption) (r : Reply) :
    (opts.foldl ReplyOption.set r).Parameters = r.Parameters := by
  induction opts generalizing r with
  | nil => rfl
  | cons o os ih => rw [List.foldl_cons, ih, replyOptionSet_parameters]

/-- C6 (counterexample): `MakeReply` with nil parameters marshals them to
the JSON literal `null`, not to the empty object: the wire message is
exactly `{"parameters":null}`. -/
theorem MakeReply_nil_parameters_null :
    (MakeReply .nil []).Parameters = some "null" ∧
    Reply.encodeWire (MakeReply .nil []) = "\x7b\"parameters\":null\x7d" ∧
    ("null" : String) ≠ "\x7b\x7d" := by
  refine ⟨rfl, by decide, by decide⟩

/-- C6 (amended): every reply constructed by `MakeReply` carries the
`parameters` field on the wire — the field is never omitted — but a nil
parameters argument serializes as the JSON literal `null` (not as the
empty object `\x7b\x7d`). -/
theorem MakeReply_parameters_always_present :
    (∀ r : Reply, ∃ rest, r.encodeWire = "\x7b\"parameters\":" ++ rest) ∧
    (∀ (params : GoVal) (opts : List ReplyOption),
      (MakeReply params opts).Parameters = some params.marshal) ∧
    (∀ opts : List ReplyOption, (MakeReply .nil opts).Parameters = some "null") := by
  refine ⟨?_, ?_, ?_⟩
  · intro r
    refine ⟨(match r.Parameters with
      | none => "null"
      | some raw => raw) ++
      ((if r.Continues then ",\"continues\":true" else "") ++
        ((if r.Error ≠ "" then ",\"error\":" ++ jsonQuote r.Error else "") ++ "\x7d")), ?_⟩
    simp [Reply.encodeWire, String.append_assoc]
  · intro params opts
    exact foldlSet_parameters opts _
  · intro opts
    exact foldlSet_parameters opts _

/-- C2: with a nil session and an empty-URI call, `Transport.RoundTrip`
synthesizes `unix:@<interface>` but never uses it — it passes `call.URI`
(the zero URI) to `takeSession`, so the round trip fails with
`ErrUnsupportedScheme` on the empty URI even though dialing the
synthesized URI would succeed. -/
theorem Transport_empty_uri_code_bug :
    Transport.RoundTrip (fun _ => false) false { Method := "org.example.ping.Ping" } =
      .error (.unsupportedScheme ⟨"", ""⟩) ∧
    Transport.deriveURI { Method := "org.example.ping.Ping" } =
      .ok ⟨"unix", "@org.example.ping"⟩ ∧
    Dial (URI.string ⟨"unix", "@org.example.ping"⟩) = .ok ⟨"unix", "@org.example.ping"⟩ := by
  refine ⟨by decide, by decide, by decide⟩

/-- C9 (counterexample): `PassFds` performs no limit check — enqueueing
254 descriptors returns normally with the enlarged queue instead of
failing the caller. -/
theorem PassFds_overflow_no_fault :
    UnixConn.PassFds {} (List.replicate 254 0) = .ok { wfds := List.replicate 254 0 } ∧
    (List.replicate 254 (0 : Nat)).length > _SCM_MAX_FD := by
  refine ⟨rfl, by rw [List.length_replicate]; norm_num [_SCM_MAX_FD]⟩

/-- C9 (amended): `PassFds` itself never fails; the fatal fault for a
queue exceeding 253 descriptors is raised by the next `Write` on the
connection, before anything is sent, so a successfully written message
never carries more than 253 descriptors. -/
theorem UnixConn_fd_limit_checked_at_write :
    (∀ (u : UnixConn) (fds : List Nat),
      u.PassFds fds = .ok { u with wfds := u.wfds ++ fds }) ∧
    (∀ (u : UnixConn) (n : Nat), u.wfds.length > _SCM_MAX_FD →
      u.Write n = .error (.programError "cannot pass more than 253 file descriptors per write")) ∧
    (∀ (u : UnixConn) (n : Nat) (r : UnixConn × Nat), u.Write n = .ok r →
      u.wfds.length ≤ _SCM_MAX_FD ∧ r.1.sent = u.sent ++ [(u.wfds, n)] ∧ r.1.wfds = []) := by
  refine ⟨fun u fds => rfl, ?_, ?_⟩
  · intro u n h
    simp [UnixConn.Write, h]
  · intro u n r h
    by_cases hc : u.wfds.length > _SCM_MAX_FD
    · simp [UnixConn.Write, hc] at h
    · simp [UnixConn.Write, hc] at h
      refine ⟨by omega, ?_, ?_⟩ <;> rw [← h]

/-- Witness for C9 (amended): a 254-descriptor queue faults `Write`, and
a small queue is sent attached to the message with the queue cleared. -/
theorem UnixConn_fd_limit_checked_at_write_witness :
    UnixConn.Write ⟨List.replicate 254 0, [], []⟩ 5 =
      .error (.programError "cannot pass more than 253 file descriptors per write") ∧
    ((⟨[7], [], []⟩ : UnixConn).wfds.length ≤ _SCM_MAX_FD ∧
      ((⟨[], [], [([7], 3)]⟩ : UnixConn), 3).1.sent = ([] : List (List Nat × Nat)) ++ [([7], 3)] ∧
      ((⟨[], [], [([7], 3)]⟩ : UnixConn), 3).1.wfds = []) := by
  constructor
  · exact UnixConn_fd_limit_checked_at_write.2.1 _ 5
      (by rw [List.length_replicate]; norm_num [_SCM_MAX_FD])
  · exact UnixConn_fd_limit_checked_at_write.2.2 ⟨[7], [], []⟩ 3 _ rfl

/-- C10: writing a call or a reply that carries file descriptors on a
session whose connection is not an `FdPasser` returns
`ErrFdPassingNotSupported` before any byte reaches the connection: the
session (and its in-flight list) is unchanged. -/
theorem Session_write_fd_unsupported :
    ∀ (s : Session) (id : Nat) (call : Call) (reply : Reply),
      s.conn.isFdPasser = false →
      (call.FileDescriptors ≠ [] →
        s.WriteCall id call = (s, some .fdPassingNotSupported)) ∧
      (reply.FileDescriptors ≠ [] →
        s.WriteReply reply = (s, some .fdPassingNotSupported)) := by
  intro s id call reply hfd
  constructor
  · intro hne
    simp [Session.WriteCall, Session.writeMsg, hfd, hne]
  · intro hne
    simp [Session.WriteReply, Session.writeMsg, hfd, hne]

/-- Witness for C10: a concrete fd-carrying call and reply on a
non-fd-passing session. -/
theorem Session_write_fd_unsupported_witness :
    ({ conn := { isFdPasser := false } } : Session).WriteCall 1
        { Method := "a.B", FileDescriptors := [3] } =
      ({ conn := { isFdPasser := false } }, some .fdPassingNotSupported) ∧
    ({ conn := { isFdPasser := false } } : Session).WriteReply
        { FileDescriptors := [4] } =
      ({ conn := { isFdPasser := false } }, some .fdPassingNotSupported) := by
  constructor
  · exact (Session_write_fd_unsupported _ 1 _ { FileDescriptors := [4] } rfl).1 (by decide)
  · exact (Session_write_fd_unsupported _ 1 { Method := "a.B", FileDescriptors := [3] } _ rfl).2 (by decide)

lemma runHandlerWrites_all_continues (writes : HandlerWrites)
    (h : ∀ w ∈ writes, (MakeReply w.1 w.2).Continues = true) :
    runHandlerWrites false false writes =
      .ok (writes.map (fun w => MakeReply w.1 w.2), false) := by
  induction writes with
  | nil => rfl
  | cons w rest ih =>
    have hw : (MakeReply w.1 w.2).Continues = true := h w (by simp)
    have hrest := ih (fun x hx => h x (by simp [hx]))
    simp [runHandlerWrites, hw, hrest]

/-- C3: a handler that returns without having written a terminal reply
(every reply it wrote had `continues=true`, possibly none at all) is
followed by a synthesized `MethodNotImplemented` error reply; with a nil
handler the server emits `MethodNotFound`. -/
theorem Server_terminal_reply_invariant :
    (∀ (call : Call) (writes : HandlerWrites),
      (∀ w ∈ writes, (MakeReply w.1 w.2).Continues = true) →
      Server.serveCall (some writes) false call =
        .ok (writes.map (fun w => MakeReply w.1 w.2) ++
          [writeErrorReply (service.MethodNotImplemented call.Method)])) ∧
    (∀ call : Call, Server.serveCall none false call =
      .ok [writeErrorReply (service.MethodNotFound call.Method)]) := by
  constructor
  · intro call writes h
    simp [Server.serveCall, runHandlerWrites_all_continues writes h]
  · intro call
    rfl

/-- Witness for C3: a handler writing one `continues=true` reply is
chased by `MethodNotImplemented`; a nil handler answers
`MethodNotFound`. -/
theorem Server_terminal_reply_invariant_witness :
    Server.serveCall (some [(GoVal.json (Json.obj []), [ReplyOption.continuesOpt])]) false
        { Method := "org.example.t.M" } =
      .ok ([(GoVal.json (Json.obj []), [ReplyOption.continuesOpt])].map
            (fun w => MakeReply w.1 w.2) ++
          [writeErrorReply (service.MethodNotImplemented "org.example.t.M")]) ∧
    Server.serveCall none false { Method := "org.example.t.M" } =
      .ok [writeErrorReply (service.MethodNotFound "org.example.t.M")] := by
  constructor
  · exact Server_terminal_reply_invariant.1 { Method := "org.example.t.M" } _ (by decide)
  · exact Server_terminal_reply_invariant.2 { Method := "org.example.t.M" }

/-- C4: the server worker never consults `oneway` — for a `oneway=true`
call whose handler emits no reply, it still writes a
`MethodNotImplemented` error reply on the session (so the claimed
no-reply behaviour does not hold); in general `serveCall` is oblivious
to the `OneWay` flag. -/
theorem Server_oneway_not_suppressed :
    Server.serveCall (some []) false { Method := "org.example.ping.Ping", OneWay := true } =
      .ok [writeErrorReply (service.MethodNotImplemented "org.example.ping.Ping")] ∧
    [writeErrorReply (service.MethodNotImplemented "org.example.ping.Ping")] ≠ ([] : List Reply) ∧
    (∀ (hw : Option HandlerWrites) (d : Bool) (c : Call),
      Server.serveCall hw d { c with OneWay := true } =
        Server.serveCall hw d { c with OneWay := false }) := by
  refine ⟨rfl, by simp, ?_⟩
  intro hw d c
  cases hw <;> rfl

/-- C5: `Next()` semantics of the reply stream.  (1) A call answered by
replies with `continues=true,true,false` yields `Next()` results
`true,true,true,false` — regardless of reply contents and of further
queued peer messages.  (2) A transport error (here: peer disconnect)
makes `Next()` return false with the error stored.  (3) Once `more` is
cleared — as a terminal reply clears it — every subsequent `Next()`
returns false.  (4) `Next()` returns true exactly when the stream was
still live and a reply was produced by `ReadReply`. -/
theorem ReplyStream_next_semantics :
    (∀ (id : Nat) (conn : SessConn) (cq : List Call) (p1 p2 p3 : Option String)
        (extra : List WireMsg),
      (ReplyStream.runNext (NewReplyStream id)
          { conn := conn, cq := cq, inflight := [id],
            peer := [.reply { Parameters := p1, Continues := true },
                     .reply { Parameters := p2, Continues := true },
                     .reply { Parameters := p3, Continues := false }] ++ extra } 4).map
        (fun p => p.1) = some [true, true, true, false]) ∧
    (∀ (id : Nat) (conn : SessConn) (cq : List Call),
      (NewReplyStream id).Next { conn := conn, cq := cq, inflight := [id], peer := [] } =
        some (false,
          { callId := id, err := some (.io .peerDisconnected), more := false },
          { conn := conn, cq := cq, inflight := [id], peer := [] })) ∧
    (∀ (r : ReplyStream) (s : Session) (k : Nat), r.more = false →
      (r.runNext s k).map (fun p => p.1) = some (List.replicate k false)) ∧
    (∀ (r : ReplyStream) (s : Session) (b : Bool) (r' : ReplyStream) (s' : Session),
      r.Next s = some (b, r', s') →
      (b = true ↔ r.more = true ∧ ∃ rep s₂, s.ReadReply r.callId = .ok rep s₂)) := by
  refine ⟨?_, ?_, ?_, ?_⟩
  · intro id conn cq p1 p2 p3 extra
    simp [ReplyStream.runNext, ReplyStream.Next, NewReplyStream,
      Session.ReadReply, Session.readReply, Session.readReplyLoop]
  · intro id conn cq
    simp [ReplyStream.Next, NewReplyStream,
      Session.ReadReply, Session.readReply, Session.readReplyLoop]
  · intro r s k h
    induction k with
    | zero => rfl
    | succ n ih =>
      rcases hr : r.runNext s n with - | ⟨⟨bs, r2, s2⟩⟩
      · rw [hr] at ih
        cases ih
      · rw [hr] at ih
        simp at ih
        simp [ReplyStream.runNext, ReplyStream.Next, h, hr, ih, List.replicate_succ]
  · intro r s b r' s' h
    by_cases hm : r.more
    · rw [ReplyStream.Next, if_neg (by simp [hm])] at h
      cases hR : Session.ReadReply s r.callId with
      | ok rep s₂ =>
        rw [hR] at h
        simp at h
        constructor
        · intro _
          exact ⟨hm, rep, s₂, rfl⟩
        · intro _
          exact h.1
      | blocked => rw [hR] at h; cases h
      | fault => rw [hR] at h; cases h
      | err e =>
        rw [hR] at h
        simp at h
        constructor
        · intro hbt
          rw [hbt] at h
          simp at h
        · rintro ⟨-, rep, s₂, hR2⟩
          cases hR2
    · rw [ReplyStream.Next, if_pos (by simp [hm])] at h
      simp at h
      constructor
      · intro hbt
        rw [hbt] at h
        simp at h
      · rintro ⟨hm2, -⟩
        exact absurd hm2 hm

lemma writeMsg_fst_inflight (s : Session) (m : String) (f : List Nat) :
    ((s.writeMsg m f).1).inflight = s.inflight := by
  unfold Session.writeMsg
  split <;> rfl

lemma readReply_preserves_inflight (s : Session) (r : Reply) (s' : Session)
    (h : s.readReply = .ok (r, s')) : s'.inflight = s.inflight := by
  unfold Session.readReply at h
  split at h
  · simp at h
    rw [← h.2]
  · split at h
    · cases h
    · rename_i t r₀ cq' peer' heq
      simp at h
      rw [← h.2]

lemma ReadReply_step (s : Session) (init : Nat) (r : Reply) (s' : Session)
    (h : s.ReadReply init = .ok r s') :
    s.inflight.head? = some init ∧
    s'.inflight = if r.Continues then s.inflight else s.inflight.tail := by
  unfold Session.ReadReply at h
  split at h
  next hnil => cases h
  next head rest hcons =>
    split at h
    · cases h
    next hne =>
      simp at hne
      split at h
      · cases h
      next r₀ s₁ hrr =>
        split at h
        next hc =>
          injection h with h1 h2
          subst h1
          subst h2
          simp at hc
          simp [hcons, hne, hc]
        next hc =>
          injection h with h1 h2
          subst h1
          subst h2
          simp at hc
          have hpres := readReply_preserves_inflight s r₀ s₁ hrr
          simp [hcons, hne, hc, hpres]

/-- C1: reply FIFO on a session.  (1) `ReadReply` delivers a reply only
when the initiator is the head of the in-flight list, and removes the
head exactly when the delivered reply has `continues=false`.  (2)
`WriteCall` appends to the in-flight list in dispatch order.  (3) Over
any sequence of reads on a session whose in-flight list is `ids`, the
i-th terminal reply delivered corresponds to `ids[i]`, whatever
peer-initiated calls are interleaved in the inbound stream. -/
theorem Session_reply_fifo :
    (∀ (s : Session) (init : Nat) (r : Reply) (s' : Session),
      s.ReadReply init = .ok r s' →
      s.inflight.head? = some init ∧
      s'.inflight = if r.Continues then s.inflight else s.inflight.tail) ∧
    (∀ (s : Session) (id : Nat) (c : Call) (s' : Session),
      s.WriteCall id c = (s', none) → s'.inflight = s.inflight ++ [id]) ∧
    (∀ (inits : List Nat) (s : Session) (ids : List Nat) (prs : List (Nat × Reply))
        (s' : Session),
      s.inflight = ids → s.runReads inits = some (prs, s') →
      (prs.filter (fun p => !p.2.Continues)).map Prod.fst =
        ids.take ((prs.filter (fun p => !p.2.Continues)).length) ∧
      s'.inflight = ids.drop ((prs.filter (fun p => !p.2.Continues)).length)) := by
  refine ⟨ReadReply_step, ?_, ?_⟩
  · intro s id c s' h
    unfold Session.WriteCall at h
    split at h
    · cases h
    next s₁ hw =>
      injection h with h1 h2
      rw [← h1]
      have hi := writeMsg_fst_inflight s c.encodeWire c.FileDescriptors
      rw [hw] at hi
      simp at hi ⊢
      simp [hi]
  · intro inits
    induction inits with
    | nil =>
      intro s ids prs s' hin hrun
      unfold Session.runReads at hrun
      injection hrun with h
      injection h with h1 h2
      rw [← h1, ← h2]
      simp [hin]
    | cons i rest ih =>
      intro s ids prs s' hin hrun
      unfold Session.runReads at hrun
      split at hrun
      next r s₁ hR =>
        split at hrun
        next prs' s'' hrr =>
          injection hrun with h
          injection h with h1 h2
          subst h1
          subst h2
          obtain ⟨hhead, hinfl⟩ := ReadReply_step s i r s₁ hR
          rw [hin] at hhead hinfl
          cases ids with
          | nil => cases hhead
          | cons a t =>
            have ha : a = i := by
              simp at hhead
              exact hhead
            subst ha
            by_cases hc : r.Continues
            · rw [if_pos hc] at hinfl
              obtain ⟨g1, g2⟩ := ih s₁ (a :: t) prs' s'' (by rw [hinfl]) hrr
              simp [List.filter, hc, g1, g2]
            · rw [if_neg hc] at hinfl
              simp at hinfl
              obtain ⟨g1, g2⟩ := ih s₁ t prs' s'' (by rw [hinfl]) hrr
              have hcf : r.Continues = false := by simpa using hc
              simp [List.filter, hcf, g1, g2]
        next hrr => cases hrun
      next hx => cases hrun

/-- Witness for C1: two in-flight calls, a peer call interleaved before
the replies; the two terminal replies correspond to calls 1 and 2 in
order and drain the in-flight list. -/
theorem Session_reply_fifo_witness :
    (([((1 : Nat), ({ Continues := true } : Reply)), (1, {}), (2, {})].filter
        (fun p => !p.2.Continues)).map Prod.fst =
      ([1, 2] : List Nat).take
        (([((1 : Nat), ({ Continues := true } : Reply)), (1, {}), (2, {})].filter
          (fun p => !p.2.Continues)).length)) ∧
    ({ conn := { isFdPasser := true }, cq := [{ Method := "p.C" }],
        inflight := [], peer := [] } : Session).inflight =
      ([1, 2] : List Nat).drop
        (([((1 : Nat), ({ Continues := true } : Reply)), (1, {}), (2, {})].filter
          (fun p => !p.2.Continues)).length) := by
  exact Session_reply_fifo.2.2 [1, 1, 2]
    { conn := { isFdPasser := true }, inflight := [1, 2],
      peer := [.call { Method := "p.C" }, .reply { Continues := true },
               .reply {}, .reply {}] }
    [1, 2] _ _ rfl rfl

/-- Witness for C5: once `more` is cleared every `Next()` returns false,
and a live stream's successful `Next()` characterizes a produced reply. -/
theorem ReplyStream_next_semantics_witness :
    ((ReplyStream.runNext { callId := 5, more := false }
        { conn := { isFdPasser := true } } 2).map (fun p => p.1) =
      some (List.replicate 2 false)) ∧
    (true = true ↔ ({ callId := 5, more := true } : ReplyStream).more = true ∧
      ∃ rep s₂,
        Session.ReadReply
          { conn := { isFdPasser := true }, inflight := [5], peer := [.reply {}] } 5 =
          .ok rep s₂) := by
  constructor
  · exact ReplyStream_next_semantics.2.2.1 { callId := 5, more := false } _ 2 rfl
  · exact ReplyStream_next_semantics.2.2.2 { callId := 5, more := true }
      { conn := { isFdPasser := true }, inflight := [5], peer := [.reply {}] }
      true _ _ rfl

/-- C7: aggregate-type disambiguation in `Parser.ElementType`.  After the
opening paren and the first field-name, a colon dispatches to `Struct`
and a comma dispatches to `Enum` (with the stream restored); but a
closing paren — the single-value enum shape `(v)` — is rejected by
`Accept(TokenColon, TokenComma)` with an unexpected-token error, even
though `Parser.Enum` itself accepts exactly those tokens as the
single-value enum. -/
theorem Parser_aggregate_disambiguation :
    (Parser.ElementType 9
        [{ typ := .lparen }, { typ := .fieldName, value := "v" }, { typ := .rparen }] =
      .error (.unexpectedToken .rparen [.colon, .comma])) ∧
    (Parser.Enum 9
        [{ typ := .lparen }, { typ := .fieldName, value := "v" }, { typ := .rparen }] =
      .ok (.enum ["v"], [])) ∧
    (∀ (fuel : Nat) (f : Token) (rest : List Token), f.typ = .fieldName →
      Parser.ElementType (fuel + 2)
          ({ typ := .lparen } :: f :: ({ typ := .colon } : Token) :: rest) =
        Parser.Struct (fuel + 1)
          ({ typ := .lparen } :: f :: ({ typ := .colon } : Token) :: rest)) ∧
    (∀ (fuel : Nat) (f : Token) (rest : List Token), f.typ = .fieldName →
      Parser.ElementType (fuel + 2)
          ({ typ := .lparen } :: f :: ({ typ := .comma } : Token) :: rest) =
        Parser.Enum (fuel + 1)
          ({ typ := .lparen } :: f :: ({ typ := .comma } : Token) :: rest)) := by
  refine ⟨rfl, rfl, ?_, ?_⟩
  · intro fuel f rest hf
    simp [Parser.ElementType, Parser.Next, Parser.Comments, Parser.commentsLoop,
      Parser.Accept, hf, Bind.bind, Except.bind]
  · intro fuel f rest hf
    simp [Parser.ElementType, Parser.Next, Parser.Comments, Parser.commentsLoop,
      Parser.Accept, hf, Bind.bind, Except.bind]

/-- Witness for C7: the dispatch equalities at a concrete token stream. -/
theorem Parser_aggregate_disambiguation_witness :
    (Parser.ElementType 9
        [{ typ := .lparen }, { typ := .fieldName, value := "a" },
         { typ := .colon }, { typ := .typeInt }, { typ := .rparen }] =
      Parser.Struct 8
        [{ typ := .lparen }, { typ := .fieldName, value := "a" },
         { typ := .colon }, { typ := .typeInt }, { typ := .rparen }]) ∧
    (Parser.ElementType 9
        [{ typ := .lparen }, { typ := .fieldName, value := "a" },
         { typ := .comma }, { typ := .fieldName, value := "b" }, { typ := .rparen }] =
      Parser.Enum 8
        [{ typ := .lparen }, { typ := .fieldName, value := "a" },
         { typ := .comma }, { typ := .fieldName, value := "b" }, { typ := .rparen }]) := by
  constructor
  · exact Parser_aggregate_disambiguation.2.2.1 7 { typ := .fieldName, value := "a" }
      [{ typ := .typeInt }, { typ := .rparen }] rfl
  · exact Parser_aggregate_disambiguation.2.2.2 7 { typ := .fieldName, value := "a" }
      [{ typ := .fieldName, value := "b" }, { typ := .rparen }] rfl

lemma tokenPositions_append_last (start : Cursor) (xs : List Char) (c : Char) :
    (tokenPositions start (xs ++ [c])).getLast? = some (start.advanceList xs) := by
  induction xs generalizing start with
  | nil => simp [tokenPositions, Cursor.advanceList]
  | cons x xs ih =>
    simp only [List.cons_append, tokenPositions, List.getLast?_cons, List.append_eq]
    rw [ih (start.advance x)]
    simp [Cursor.advanceList]

lemma consumedFrom_refl (l : Lexer) (h : l.atBoundary) : l.ConsumedFrom l := by
  obtain ⟨h1, h2⟩ := h
  refine ⟨by simp [h1], h2, by simp [h1, Cursor.advanceList], fun _ => rfl,
    fun hne => absurd h1 hne, rfl⟩

lemma readRune_inv (l l' : Lexer) (c : Char) (h : l.readRune = some (c, l')) :
    l.input = c :: l'.input ∧ l'.token = l.token ++ [c] ∧
    l'.Position = l.NextPosition ∧ l'.NextPosition = l.NextPosition.advance c ∧
    l'.TokenPosition = l.TokenPosition ∧
    l'.CoerceIdentifierType = l.CoerceIdentifierType := by
  unfold Lexer.readRune at h
  cases hin : l.input with
  | nil => rw [hin] at h; cases h
  | cons d rest =>
    rw [hin] at h
    simp at h
    obtain ⟨hc, hl⟩ := h
    subst hc
    rw [← hl]
    simp [hin]

lemma consumedFrom_readRune (l₀ l l' : Lexer) (c : Char)
    (hC : l₀.ConsumedFrom l) (h : l.readRune = some (c, l')) : l₀.ConsumedFrom l' := by
  obtain ⟨h1, h2, h3, _h4, _h5, h6⟩ := hC
  obtain ⟨r1, r2, r3, r4, r5, r6⟩ := readRune_inv l l' c h
  refine ⟨?_, by rw [r5, h2], ?_, ?_, ?_, by rw [r6, h6]⟩
  · rw [h1, r1, r2]
    simp
  · rw [r4, r2, h3]
    simp [Cursor.advanceList]
  · intro hx
    rw [r2] at hx
    simp at hx
  · intro _
    rw [r2, r3, tokenPositions_append_last, h3]

lemma emit_stepOK (l₀ l : Lexer) (typ : TokenType) (v : String)
    (hC : l₀.ConsumedFrom l) :
    Lexer.StepOK l₀ ([(l.emit typ v).1], some (l.emit typ v).2) := by
  obtain ⟨h1, h2, h3, _h4, h5, h6⟩ := hC
  constructor
  · refine ⟨?_, h2, fun hne => h5 hne, trivial⟩
    show l.token = l₀.input.take l.token.length
    rw [h1]
    exact (List.take_left _ _).symm
  · intro l' hl'
    injection hl' with hl'
    rw [← hl']
    refine ⟨⟨rfl, rfl⟩, ?_, ?_, h6⟩
    · show l.input = l₀.input.drop (totalRaw [(l.emit typ v).1])
      simp only [totalRaw, List.map, List.sum_cons, List.sum_nil]
      rw [h1]
      show l.input = (l.token ++ l.input).drop (l.token.length + 0)
      simp
    · show l.NextPosition =
        l₀.NextPosition.advanceList (l₀.input.take (totalRaw [(l.emit typ v).1]))
      simp only [totalRaw, List.map, List.sum_cons, List.sum_nil]
      rw [h1]
      show l.NextPosition =
        l₀.NextPosition.advanceList ((l.token ++ l.input).take (l.token.length + 0))
      simp [List.take_left, h3]

lemma errToken_stepOK (l₀ l : Lexer) (b : Bool) (hC : l₀.ConsumedFrom l) :
    Lexer.StepOK l₀ ([l.errToken b], none) := by
  obtain ⟨h1, h2, _h3, _h4, h5, _h6⟩ := hC
  constructor
  · refine ⟨?_, h2, fun hne => h5 hne, trivial⟩
    show l.token = l₀.input.take l.token.length
    rw [h1]
    exact (List.take_left _ _).symm
  · intro l' hl'
    cases hl'

lemma emit_then_eof_stepOK (l₀ l : Lexer) (typ : TokenType) (v : String)
    (hC : l₀.ConsumedFrom l) :
    Lexer.StepOK l₀ ([(l.emit typ v).1, ((l.emit typ v).2).errToken true], none) := by
  obtain ⟨h1, h2, h3, _h4, h5, h6⟩ := hC
  constructor
  · refine ⟨?_, h2, fun hne => h5 hne, ?_, ?_, ?_, trivial⟩
    · show l.token = l₀.input.take l.token.length
      rw [h1]
      exact (List.take_left _ _).symm
    · rfl
    · show l.NextPosition = l₀.NextPosition.advanceList (l.emit typ v).1.raw
      show l.NextPosition = l₀.NextPosition.advanceList l.token
      exact h3
    · intro hx
      exact absurd rfl hx
  · intro l' hl'
    cases hl'

lemma readN_token_mono (n : Nat) (l : Lexer) :
    l.token.length ≤ (l.readN n).token.length := by
  induction n generalizing l with
  | zero => exact le_rfl
  | succ m ih =>
    unfold Lexer.readN
    cases h : l.readRune with
    | none => exact le_rfl
    | some p =>
      obtain ⟨c, l'⟩ := p
      have hlen : l'.token = l.token ++ [c] := (readRune_inv l l' c h).2.1
      calc l.token.length ≤ l'.token.length := by rw [hlen]; simp
        _ ≤ _ := ih l'

lemma consumedFrom_readN (n : Nat) (l₀ l : Lexer) (hC : l₀.ConsumedFrom l) :
    l₀.ConsumedFrom (l.readN n) := by
  induction n generalizing l with
  | zero => exact hC
  | succ m ih =>
    unfold Lexer.readN
    cases h : l.readRune with
    | none => exact hC
    | some p =>
      obtain ⟨c, l'⟩ := p
      exact ih l' (consumedFrom_readRune l₀ l l' c hC h)

lemma readN_token_grows (n : Nat) (l : Lexer) (hn : n ≠ 0) (hin : l.input ≠ []) :
    (l.readN n).token ≠ [] := by
  cases n with
  | zero => contradiction
  | succ m =>
    unfold Lexer.readN
    cases hi : l.input with
    | nil => exact absurd hi hin
    | cons c rest =>
      cases h : l.readRune with
      | none =>
        unfold Lexer.readRune at h
        rw [hi] at h
        cases h
      | some p =>
        obtain ⟨d, l'⟩ := p
        have hlen : l'.token = l.token ++ [d] := (readRune_inv l l' d h).2.1
        have h1 : 0 < l'.token.length := by rw [hlen]; simp
        have h2 := readN_token_mono m l'
        intro hz
        rw [hz] at h2
        simp only [List.length_nil] at h2
        omega

lemma consumedFrom_acceptString (exp : List Char) (l₀ l : Lexer) (hC : l₀.ConsumedFrom l) :
    l₀.ConsumedFrom (l.acceptString exp).1 ∧
      l.token.length ≤ (l.acceptString exp).1.token.length := by
  induction exp generalizing l with
  | nil => exact ⟨hC, le_rfl⟩
  | cons e rest ih =>
    unfold Lexer.acceptString
    split
    · exact ⟨hC, le_rfl⟩
    next c l' h =>
      have hC' := consumedFrom_readRune l₀ l l' c hC h
      have hlen : l'.token = l.token ++ [c] := (readRune_inv l l' c h).2.1
      have hle : l.token.length ≤ l'.token.length := by rw [hlen]; simp
      by_cases hce : c = e
      · rw [if_pos hce]
        obtain ⟨g1, g2⟩ := ih l' hC'
        exact ⟨g1, le_trans hle g2⟩
      · rw [if_neg hce]
        exact ⟨hC', hle⟩

lemma commentLoop_step (l : Lexer) (c : Char) (rest : List Char)
    (hin : l.input = c :: rest) (hc : ¬c = '\n') :
    l.commentLoop = Lexer.commentLoop { l with
      input := rest, token := l.token ++ [c], Position := l.NextPosition,
      NextPosition := l.NextPosition.advance c } := by
  rw [Lexer.commentLoop.eq_def]
  split
  next heq => rw [hin] at heq; cases heq
  next c2 rest2 heq =>
    rw [hin] at heq
    injection heq with h1 h2
    subst h1
    subst h2
    rw [if_neg hc]

lemma commentLoop_stop (l : Lexer)
    (h : l.input = [] ∨ ∃ rest, l.input = '\n' :: rest) :
    l.commentLoop = l := by
  rw [Lexer.commentLoop.eq_def]
  split
  next heq => rfl
  next c2 rest2 heq =>
    rcases h with h | ⟨rest, h⟩
    · rw [h] at heq; cases heq
    · rw [h] at heq
      injection heq with h1 h2
      subst h1
      simp

lemma consumedFrom_commentLoop (l₀ : Lexer) :
    ∀ (n : Nat) (l : Lexer), l.input.length = n → l₀.ConsumedFrom l →
      l₀.ConsumedFrom l.commentLoop ∧ l.token.length ≤ l.commentLoop.token.length := by
  intro n
  induction n using Nat.strong_induction_on with
  | _ n ih =>
    intro l hn hC
    cases hin : l.input with
    | nil =>
      rw [commentLoop_stop l (Or.inl hin)]
      exact ⟨hC, le_rfl⟩
    | cons c rest =>
      by_cases hc : c = '\n'
      · rw [commentLoop_stop l (Or.inr ⟨rest, by rw [hin, hc]⟩)]
        exact ⟨hC, le_rfl⟩
      · rw [commentLoop_step l c rest hin hc]
        have hr : l.readRune = some (c, { l with
            input := rest, token := l.token ++ [c], Position := l.NextPosition,
            NextPosition := l.NextPosition.advance c }) := by
          unfold Lexer.readRune
          rw [hin]
        have hC2 := consumedFrom_readRune l₀ l _ c hC hr
        have hlt : rest.length < n := by
          rw [← hn, hin]
          simp
        obtain ⟨g1, g2⟩ := ih rest.length hlt _ rfl hC2
        refine ⟨g1, le_trans ?_ g2⟩
        simp

lemma wsLoop_nil (l : Lexer) (hin : l.input = []) :
    l.wsLoop = ([(l.emit .whitespace "").1, ((l.emit .whitespace "").2).errToken true], none) := by
  rw [Lexer.wsLoop.eq_def]
  split
  next heq => rfl
  next c rest heq => rw [hin] at heq; cases heq

lemma wsLoop_emit (l : Lexer) (c : Char) (rest : List Char) (hin : l.input = c :: rest)
    (hstop : (newlineChar c || !goIsSpace c) = true) :
    l.wsLoop = ([(l.emit .whitespace "").1], some (l.emit .whitespace "").2) := by
  rw [Lexer.wsLoop.eq_def]
  split
  next heq => rw [hin] at heq; cases heq
  next c2 rest2 heq =>
    rw [hin] at heq
    injection heq with h1 h2
    subst h1
    subst h2
    rw [if_pos hstop]

lemma wsLoop_step (l : Lexer) (c : Char) (rest : List Char) (hin : l.input = c :: rest)
    (hgo : (newlineChar c || !goIsSpace c) = false) :
    l.wsLoop = Lexer.wsLoop { l with
      input := rest, token := l.token ++ [c], Position := l.NextPosition,
      NextPosition := l.NextPosition.advance c } := by
  rw [Lexer.wsLoop.eq_def]
  split
  next heq => rw [hin] at heq; cases heq
  next c2 rest2 heq =>
    rw [hin] at heq
    injection heq with h1 h2
    subst h1
    subst h2
    rw [if_neg (by simp [hgo])]

lemma wsLoop_stepOK (l₀ : Lexer) :
    ∀ (n : Nat) (l : Lexer), l.input.length = n → l₀.ConsumedFrom l →
      Lexer.StepOK l₀ l.wsLoop := by
  intro n
  induction n using Nat.strong_induction_on with
  | _ n ih =>
    intro l hn hC
    cases hin : l.input with
    | nil =>
      rw [wsLoop_nil l hin]
      exact emit_then_eof_stepOK l₀ l .whitespace "" hC
    | cons c rest =>
      cases hstop : (newlineChar c || !goIsSpace c) with
      | true =>
        rw [wsLoop_emit l c rest hin hstop]
        exact emit_stepOK l₀ l .whitespace "" hC
      | false =>
        rw [wsLoop_step l c rest hin hstop]
        have hr : l.readRune = some (c, { l with
            input := rest, token := l.token ++ [c], Position := l.NextPosition,
            NextPosition := l.NextPosition.advance c }) := by
          unfold Lexer.readRune
          rw [hin]
        have hC2 := consumedFrom_readRune l₀ l _ c hC hr
        have hlt : rest.length < n := by
          rw [← hn, hin]
          simp
        exact ih rest.length hlt _ rfl hC2

lemma lexIdentifier_stepOK (l : Lexer) (hb : l.atBoundary) :
    Lexer.StepOK l l.lexIdentifier := by
  have hC := consumedFrom_refl l hb
  unfold Lexer.lexIdentifier
  by_cases hn : identMatchLen l.input = 0
  · rw [if_pos hn]
    exact errToken_stepOK l l false hC
  · rw [if_neg hn]
    exact emit_stepOK l (l.readN (identMatchLen l.input)) _ _
      (consumedFrom_readN (identMatchLen l.input) l l hC)

set_option maxHeartbeats 1000000 in
lemma lexStep_stepOK (l : Lexer) (hb : l.atBoundary) : Lexer.StepOK l l.lexStep := by
  have hC0 := consumedFrom_refl l hb
  unfold Lexer.lexStep
  split
  · exact errToken_stepOK l l true hC0
  next c l₁ h =>
    have hC1 := consumedFrom_readRune l l l₁ c hC0 h
    by_cases h1 : c = '('
    · rw [if_pos h1]
      exact emit_stepOK l l₁ .lparen "" hC1
    rw [if_neg h1]
    by_cases h2 : c = ')'
    · rw [if_pos h2]
      exact emit_stepOK l l₁ .rparen "" hC1
    rw [if_neg h2]
    by_cases h3 : c = '['
    · rw [if_pos h3]
      split
      next hr2 => exact errToken_stepOK l l₁ true hC1
      next l₂ hr2 =>
        have hC2 := consumedFrom_readRune l l₁ l₂ ']' hC1 hr2
        exact emit_stepOK l l₂ .array "" hC2
      next l₂ hr2 =>
        have hC2 := consumedFrom_readRune l l₁ l₂ 's' hC1 hr2
        split
        next l₃ ok heq =>
          have hC3 : l.ConsumedFrom l₃ := by
            have hx := (consumedFrom_acceptString ("tring]".data) l l₂ hC2).1
            rw [heq] at hx
            exact hx
          split
          · exact emit_stepOK l l₃ .dict "" hC3
          · exact errToken_stepOK l l₃ false hC3
      next d l₂ hne1 hne2 hr2 =>
        have hC2 := consumedFrom_readRune l l₁ l₂ d hC1 hr2
        exact errToken_stepOK l l₂ false hC2
    rw [if_neg h3]
    by_cases h4 : c = ':'
    · rw [if_pos h4]
      exact emit_stepOK l l₁ .colon "" hC1
    rw [if_neg h4]
    by_cases h5 : c = ','
    · rw [if_pos h5]
      exact emit_stepOK l l₁ .comma "" hC1
    rw [if_neg h5]
    by_cases h6 : c = '?'
    · rw [if_pos h6]
      exact emit_stepOK l l₁ .option "" hC1
    rw [if_neg h6]
    by_cases h7 : c = '-'
    · rw [if_pos h7]
      split
      next hr2 => exact errToken_stepOK l l₁ true hC1
      next l₂ hr2 =>
        have hC2 := consumedFrom_readRune l l₁ l₂ '>' hC1 hr2
        exact emit_stepOK l l₂ .arrow "" hC2
      next d l₂ hne1 hr2 =>
        have hC2 := consumedFrom_readRune l l₁ l₂ d hC1 hr2
        exact errToken_stepOK l l₂ false hC2
    rw [if_neg h7]
    by_cases h8 : c = '\n' ∨ c = lineSep ∨ c = parSep
    · rw [if_pos h8]
      exact emit_stepOK l l₁ .newline "" hC1
    rw [if_neg h8]
    by_cases h9 : c = '\r'
    · rw [if_pos h9]
      split
      next hhead => exact emit_then_eof_stepOK l l₁ .newline "" hC1
      next d hhead =>
        by_cases hd : d = '\n'
        · rw [if_pos hd]
          split
          next e l₂ hr2 =>
            have hC2 := consumedFrom_readRune l l₁ l₂ e hC1 hr2
            exact emit_stepOK l l₂ .newline "" hC2
          next hr2 =>
            unfold Lexer.readRune at hr2
            cases hi : l₁.input with
            | nil => rw [hi] at hhead; cases hhead
            | cons x xs => rw [hi] at hr2; cases hr2
        · rw [if_neg hd]
          exact emit_stepOK l l₁ .newline "" hC1
    rw [if_neg h9]
    by_cases h10 : c = '#'
    · rw [if_pos h10]
      have hC2 : l.ConsumedFrom l₁.commentLoop ∧
          l₁.token.length ≤ l₁.commentLoop.token.length :=
        consumedFrom_commentLoop l l₁.input.length l₁ rfl hC1
      dsimp only
      split
      next hhead =>
        split
        next e l₃ hr3 =>
          have hC3 := consumedFrom_readRune l l₁.commentLoop l₃ e hC2.1 hr3
          exact emit_stepOK l l₃ .comment _ hC3
        next hr3 =>
          unfold Lexer.readRune at hr3
          cases hi : l₁.commentLoop.input with
          | nil => rw [hi] at hhead; cases hhead
          | cons x xs => rw [hi] at hr3; cases hr3
      next hhead =>
        exact emit_stepOK l l₁.commentLoop .comment _ hC2.1
    rw [if_neg h10]
    by_cases h11 : goIsSpace c = true
    · rw [if_pos h11]
      exact wsLoop_stepOK l l₁.input.length l₁ rfl hC1
    rw [if_neg h11]
    by_cases h12 : isIdentifierChar c 0 = true
    · rw [if_pos h12]
      exact lexIdentifier_stepOK l hb
    rw [if_neg h12]
    exact errToken_stepOK l l₁ false hC1

lemma tokensTile_append (ts1 : List Token) (p : Cursor) (input : List Char) (ts2 : List Token)
    (h1 : tokensTile p input ts1)
    (h2 : tokensTile (p.advanceList (input.take (totalRaw ts1)))
      (input.drop (totalRaw ts1)) ts2) :
    tokensTile p input (ts1 ++ ts2) := by
  induction ts1 generalizing p input with
  | nil =>
    simpa [totalRaw, Cursor.advanceList] using h2
  | cons t ts ih =>
    obtain ⟨f1, f2, f3, f4⟩ := h1
    refine ⟨f1, f2, f3, ?_⟩
    apply ih
    · exact f4
    · have hlen : totalRaw (t :: ts) = t.raw.length + totalRaw ts := by
        simp [totalRaw]
      rw [hlen, List.take_add, ← List.drop_drop] at h2
      have hsplit : Cursor.advanceList p
            (input.take t.raw.length ++ (input.drop t.raw.length).take (totalRaw ts)) =
          Cursor.advanceList (Cursor.advanceList p t.raw)
            ((input.drop t.raw.length).take (totalRaw ts)) := by
        unfold Cursor.advanceList
        rw [List.foldl_append, ← f1]
      rw [hsplit] at h2
      exact h2

lemma lexRun_tile (fuel : Nat) : ∀ (l : Lexer), l.atBoundary →
    tokensTile l.NextPosition l.input (Lexer.lexRun fuel l) := by
  induction fuel with
  | zero => intro l _; exact trivial
  | succ n ih =>
    intro l hb
    have hstep := lexStep_stepOK l hb
    unfold Lexer.lexRun
    cases hres : l.lexStep with
    | mk ts cont =>
      rw [hres] at hstep
      obtain ⟨htile, hnext⟩ := hstep
      cases cont with
      | none => exact htile
      | some l' =>
        obtain ⟨hb', hinp, hnp, _hco⟩ := hnext l' rfl
        have h2 := ih l' hb'
        rw [hinp, hnp] at h2
        exact tokensTile_append ts l.NextPosition l.input _ htile h2

/-- C8 (amended): over any run of the lexer on any input, each emitted
token's raw text is exactly the runes consumed for it, `Start` is the
cursor of its first rune, and `End` is the cursor of its last consumed
rune — so the consumed characters are those of the closed range
`[Start, End]` (equivalently `[Start, next(End))`), not of the half-open
`[Start, End)`; consecutive tokens tile the source with no gap or
overlap. -/
theorem Lexer_token_ranges :
    ∀ (fuel : Nat) (input : List Char),
      tokensTile ⟨1, 1⟩ input (Lexer.lexRun fuel (NewLexer input)) := by
  intro fuel input
  have h := lexRun_tile fuel (NewLexer input) ⟨rfl, rfl⟩
  simpa [NewLexer] using h

/-- C8 (counterexample): lexing the source `(` emits a token whose
single consumed character sits at cursor (1,1) while `Start = End =
(1,1)`: the half-open range `[Start, End)` is empty and cannot cover the
consumed character. -/
theorem Lexer_halfopen_range_empty :
    (Lexer.lexStep (NewLexer "(".data)).1 =
      [{ typ := .lparen, raw := ['('], value := "", start := ⟨1, 1⟩, endPos := ⟨1, 1⟩ }] ∧
    (['('] : List Char) ≠ [] ∧
    tokenPositions ⟨1, 1⟩ ['('] = [⟨1, 1⟩] := by
  refine ⟨rfl, by simp, rfl⟩
